import Mathlib

/-!
Verification of the news-crawler core (`CrawlNaverFinanceNews` and its
helpers) against its specification.

Go strings are modelled as lists of byte values (`List Nat`, each < 256
in practice; the definitions are total on all of `List Nat`).  Pure
string-processing functions (`cleanUTF8String`, the Firestore document-ID
transformation, the URL reconstruction regular expressions) are embedded
directly.  Effectful parts (HTTP fetches, the Firestore client) are
modelled by oracle values describing each external outcome, and the crawl
loop is embedded as a state-passing function that records the store and
network operations it issues in an event trace.
-/

namespace NewsCrawler

/-- Byte string: a Go string as its list of byte values. -/
abbrev GoStr := List Nat

/-- Byte list of an ASCII literal (each character's code point is its byte). -/
def ascii (s : String) : GoStr := s.data.map (fun c => c.toNat)

/-! ## UTF-8 decoding, `unicode/utf8` model

`decodeRune` models Go's `utf8.DecodeRuneInString`: it returns the first
rune of the byte list and the number of bytes it occupies, returning
`(0xFFFD, 1)` for an invalid byte and `(0xFFFD, 0)` on the empty string.
The accept ranges follow Go's `utf8.acceptRanges` table (rejecting
overlong encodings, surrogates and values above U+10FFFF). -/

/-- Continuation byte test: `0x80 ≤ b ≤ 0xBF`. -/
def isCont (b : Nat) : Bool := decide (0x80 ≤ b ∧ b ≤ 0xBF)

/-- Permitted second byte of a three-byte sequence, given its first byte. -/
def accept3 (b0 b1 : Nat) : Bool :=
  if b0 = 0xE0 then decide (0xA0 ≤ b1 ∧ b1 ≤ 0xBF)
  else if b0 = 0xED then decide (0x80 ≤ b1 ∧ b1 ≤ 0x9F)
  else isCont b1

/-- Permitted second byte of a four-byte sequence, given its first byte. -/
def accept4 (b0 b1 : Nat) : Bool :=
  if b0 = 0xF0 then decide (0x90 ≤ b1 ∧ b1 ≤ 0xBF)
  else if b0 = 0xF4 then decide (0x80 ≤ b1 ∧ b1 ≤ 0x8F)
  else isCont b1

/-- Model of `utf8.DecodeRuneInString`: first rune and its byte size. -/
def decodeRune : List Nat → Nat × Nat
  | [] => (0xFFFD, 0)
  | b0 :: rest =>
    if b0 < 0x80 then (b0, 1)
    else if 0xC2 ≤ b0 ∧ b0 ≤ 0xDF then
      match rest with
      | b1 :: _ =>
        if isCont b1 then ((b0 - 0xC0) * 64 + (b1 - 0x80), 2) else (0xFFFD, 1)
      | [] => (0xFFFD, 1)
    else if 0xE0 ≤ b0 ∧ b0 ≤ 0xEF then
      match rest with
      | b1 :: b2 :: _ =>
        if accept3 b0 b1 ∧ isCont b2 then
          ((b0 - 0xE0) * 4096 + (b1 - 0x80) * 64 + (b2 - 0x80), 3)
        else (0xFFFD, 1)
      | _ => (0xFFFD, 1)
    else if 0xF0 ≤ b0 ∧ b0 ≤ 0xF4 then
      match rest with
      | b1 :: b2 :: b3 :: _ =>
        if accept4 b0 b1 ∧ isCont b2 ∧ isCont b3 then
          ((b0 - 0xF0) * 262144 + (b1 - 0x80) * 4096 + (b2 - 0x80) * 64 + (b3 - 0x80), 4)
        else (0xFFFD, 1)
      | _ => (0xFFFD, 1)
    else (0xFFFD, 1)

/-- Iterated decoding (the `for i, r := range s` iteration): the list of
`(rune, bytes-of-the-unit)` pairs, fuel-indexed (fuel `≥ s.length` is
always enough, since every step consumes at least one byte). -/
def decodeAll : Nat → List Nat → List (Nat × List Nat)
  | 0, _ => []
  | _ + 1, [] => []
  | f + 1, b :: r =>
    let p := decodeRune (b :: r)
    (p.1, (b :: r).take p.2) :: decodeAll f ((b :: r).drop p.2)

/-- The decode units of a byte string. -/
def units (s : List Nat) : List (Nat × List Nat) := decodeAll s.length s

/-- A decode unit produced from an invalid byte: rune `0xFFFD` spanning a
single byte (a genuine encoded U+FFFD spans three bytes and is not bad). -/
def badUnit (p : Nat × List Nat) : Bool := decide (p.1 = 0xFFFD ∧ p.2.length = 1)

/-- Model of `utf8.ValidString`: the iteration meets no invalid byte. -/
def utf8Valid (s : List Nat) : Bool := (units s).all (fun p => !badUnit p)

/-- UTF-8 encoding of a valid Unicode scalar value. -/
def encodeScalar (r : Nat) : List Nat :=
  if r < 0x80 then [r]
  else if r < 0x800 then [0xC0 + r / 64, 0x80 + r % 64]
  else if r < 0x10000 then [0xE0 + r / 4096, 0x80 + r / 64 % 64, 0x80 + r % 64]
  else [0xF0 + r / 262144, 0x80 + r / 4096 % 64, 0x80 + r / 64 % 64, 0x80 + r % 64]

/-- Model of Go's rune-to-UTF-8 encoding (`utf8.EncodeRune`, as used by the
`string([]rune)` conversion); out-of-range runes encode U+FFFD. -/
def encodeRune (r0 : Nat) : List Nat :=
  encodeScalar (if 0x10FFFF < r0 ∨ (0xD800 ≤ r0 ∧ r0 ≤ 0xDFFF) then 0xFFFD else r0)

/-- The rune list built by the repair loop of `cleanUTF8String`: each
invalid single-byte unit contributes a space (32), every other unit its
rune. -/
def cleanRunes (s : List Nat) : List Nat :=
  (units s).map (fun p => if badUnit p then 32 else p.1)

/-- Model of `cleanUTF8String` (part_002 lines 195-211): a valid string is
returned unchanged; otherwise the repaired rune list is re-encoded. -/
def cleanUTF8String (s : List Nat) : List Nat :=
  if utf8Valid s then s else ((cleanRunes s).map encodeRune).flatten

example : cleanUTF8String (ascii "hello") = ascii "hello" := by decide
example : cleanUTF8String [104, 0x80, 105] = [104, 32, 105] := by decide
example : cleanUTF8String [0xEA, 0xB0, 0x80] = [0xEA, 0xB0, 0x80] := by decide
example : utf8Valid [0xC0, 0xAF] = false := by decide
example : cleanUTF8String [0xC0, 0xAF] = [32, 32] := by decide
example : cleanUTF8String [0xEF, 0xBF, 0xBD, 0xFF] = [0xEF, 0xBF, 0xBD, 32] := by decide

/-! ## Properties of the UTF-8 model -/

/-- A valid Unicode scalar value: at most U+10FFFF and not a surrogate. -/
def validScalar (r : Nat) : Prop := r < 0x110000 ∧ ¬(0xD800 ≤ r ∧ r ≤ 0xDFFF)

theorem encodeRune_eq_scalar (r : Nat) (h : validScalar r) :
    encodeRune r = encodeScalar r := by
  unfold validScalar at h
  unfold encodeRune
  rw [if_neg (by omega)]

theorem decodeRune_size_pos (b : Nat) (r : List Nat) : 1 ≤ (decodeRune (b :: r)).2 := by
  rcases r with - | ⟨b1, r⟩
  · simp only [decodeRune]; split_ifs <;> simp
  rcases r with - | ⟨b2, r⟩
  · simp only [decodeRune]; split_ifs <;> simp
  rcases r with - | ⟨b3, r⟩ <;>
    · simp only [decodeRune]; split_ifs <;> simp

theorem decodeRune_size_le (b : Nat) (r : List Nat) :
    (decodeRune (b :: r)).2 ≤ (b :: r).length := by
  rcases r with - | ⟨b1, r⟩
  · simp only [decodeRune, List.length_cons]; split_ifs <;> simp
  rcases r with - | ⟨b2, r⟩
  · simp only [decodeRune, List.length_cons]; split_ifs <;> simp
  rcases r with - | ⟨b3, r⟩ <;>
    · simp only [decodeRune, List.length_cons]; split_ifs <;> simp

theorem encodeRune_two (b0 b1 : Nat) (h0 : 0xC2 ≤ b0) (h1 : b0 ≤ 0xDF)
    (h2 : 0x80 ≤ b1) (h3 : b1 ≤ 0xBF) :
    validScalar ((b0 - 0xC0) * 64 + (b1 - 0x80)) ∧
      encodeRune ((b0 - 0xC0) * 64 + (b1 - 0x80)) = [b0, b1] := by
  have hv : validScalar ((b0 - 0xC0) * 64 + (b1 - 0x80)) := ⟨by omega, by omega⟩
  refine ⟨hv, ?_⟩
  rw [encodeRune_eq_scalar _ hv]
  unfold encodeScalar
  rw [if_neg (by omega), if_pos (by omega)]
  simp only [List.cons.injEq, and_true]
  constructor <;> omega

theorem encodeRune_three (b0 b1 b2 : Nat) (h0 : 0xE0 ≤ b0) (h1 : b0 ≤ 0xEF)
    (ha : accept3 b0 b1 = true) (hc : isCont b2 = true) :
    validScalar ((b0 - 0xE0) * 4096 + (b1 - 0x80) * 64 + (b2 - 0x80)) ∧
      encodeRune ((b0 - 0xE0) * 4096 + (b1 - 0x80) * 64 + (b2 - 0x80)) = [b0, b1, b2] := by
  simp only [accept3, isCont] at ha hc
  split_ifs at ha with hE0 hED <;>
    simp only [decide_eq_true_eq] at ha hc <;>
  · have hv : validScalar ((b0 - 0xE0) * 4096 + (b1 - 0x80) * 64 + (b2 - 0x80)) :=
      ⟨by omega, by omega⟩
    refine ⟨hv, ?_⟩
    rw [encodeRune_eq_scalar _ hv]
    unfold encodeScalar
    rw [if_neg (by omega), if_neg (by omega), if_pos (by omega)]
    simp only [List.cons.injEq, and_true]
    refine ⟨by omega, by omega, by omega⟩

theorem encodeRune_four (b0 b1 b2 b3 : Nat) (h0 : 0xF0 ≤ b0) (h1 : b0 ≤ 0xF4)
    (ha : accept4 b0 b1 = true) (hc : isCont b2 = true) (hd : isCont b3 = true) :
    validScalar ((b0 - 0xF0) * 262144 + (b1 - 0x80) * 4096 + (b2 - 0x80) * 64 + (b3 - 0x80)) ∧
      encodeRune ((b0 - 0xF0) * 262144 + (b1 - 0x80) * 4096 + (b2 - 0x80) * 64 + (b3 - 0x80)) =
        [b0, b1, b2, b3] := by
  simp only [accept4, isCont] at ha hc hd
  split_ifs at ha with hF0 hF4 <;>
    simp only [decide_eq_true_eq] at ha hc hd <;>
  · have hv : validScalar
        ((b0 - 0xF0) * 262144 + (b1 - 0x80) * 4096 + (b2 - 0x80) * 64 + (b3 - 0x80)) :=
      ⟨by omega, by omega⟩
    refine ⟨hv, ?_⟩
    rw [encodeRune_eq_scalar _ hv]
    unfold encodeScalar
    rw [if_neg (by omega), if_neg (by omega), if_neg (by omega)]
    simp only [List.cons.injEq, and_true]
    refine ⟨by omega, by omega, by omega, by omega⟩

/-- A non-bad decode step yields a valid scalar whose re-encoding is exactly
the bytes the step consumed. -/
theorem decodeRune_good (b : Nat) (r : List Nat)
    (h : ¬((decodeRune (b :: r)).1 = 0xFFFD ∧ (decodeRune (b :: r)).2 = 1)) :
    validScalar (decodeRune (b :: r)).1 ∧
      encodeRune (decodeRune (b :: r)).1 = (b :: r).take (decodeRune (b :: r)).2 := by
  by_cases h80 : b < 0x80
  · rw [show decodeRune (b :: r) = (b, 1) from by simp [decodeRune, h80]]
    refine ⟨⟨by omega, by omega⟩, ?_⟩
    rw [encodeRune_eq_scalar _ ⟨by omega, by omega⟩]
    unfold encodeScalar
    rw [if_pos h80]
    simp
  by_cases hB : 0xC2 ≤ b ∧ b ≤ 0xDF
  · rcases r with - | ⟨b1, r⟩
    · exfalso; simp [decodeRune, h80, hB] at h
    by_cases hc : isCont b1
    · rw [show decodeRune (b :: b1 :: r) = ((b - 0xC0) * 64 + (b1 - 0x80), 2) from by
        simp [decodeRune, h80, hB, hc]]
      simp only [isCont, decide_eq_true_eq] at hc
      simpa using encodeRune_two b b1 hB.1 hB.2 hc.1 hc.2
    · exfalso; simp [decodeRune, h80, hB, hc] at h
  by_cases hE : 0xE0 ≤ b ∧ b ≤ 0xEF
  · rcases r with - | ⟨b1, r⟩
    · exfalso; simp [decodeRune, h80, hB, hE] at h
    rcases r with - | ⟨b2, r⟩
    · exfalso; simp [decodeRune, h80, hB, hE] at h
    by_cases hacc : accept3 b b1 = true ∧ isCont b2 = true
    · rw [show decodeRune (b :: b1 :: b2 :: r) =
          ((b - 0xE0) * 4096 + (b1 - 0x80) * 64 + (b2 - 0x80), 3) from by
        simp [decodeRune, h80, hB, hE, hacc.1, hacc.2]]
      simpa using encodeRune_three b b1 b2 hE.1 hE.2 hacc.1 hacc.2
    · exfalso; simp [decodeRune, h80, hB, hE, hacc] at h
  by_cases hF : 0xF0 ≤ b ∧ b ≤ 0xF4
  · rcases r with - | ⟨b1, r⟩
    · exfalso; simp [decodeRune, h80, hB, hE, hF] at h
    rcases r with - | ⟨b2, r⟩
    · exfalso; simp [decodeRune, h80, hB, hE, hF] at h
    rcases r with - | ⟨b3, r⟩
    · exfalso; simp [decodeRune, h80, hB, hE, hF] at h
    by_cases hacc : accept4 b b1 = true ∧ isCont b2 = true ∧ isCont b3 = true
    · rw [show decodeRune (b :: b1 :: b2 :: b3 :: r) =
          ((b - 0xF0) * 262144 + (b1 - 0x80) * 4096 + (b2 - 0x80) * 64 + (b3 - 0x80), 4) from by
        simp [decodeRune, h80, hB, hE, hF, hacc.1, hacc.2.1, hacc.2.2]]
      simpa using encodeRune_four b b1 b2 b3 hF.1 hF.2 hacc.1 hacc.2.1 hacc.2.2
    · exfalso; simp [decodeRune, h80, hB, hE, hF, hacc] at h
  · exfalso; simp [decodeRune, h80, hB, hE, hF] at h

/-- Any fuel of at least the string length computes the same decode units. -/
theorem decodeAll_fuel (f : Nat) : ∀ (g : Nat) (l : List Nat),
    l.length ≤ f → l.length ≤ g → decodeAll f l = decodeAll g l := by
  induction f with
  | zero =>
    intro g l hf _
    have : l = [] := List.eq_nil_of_length_eq_zero (by omega)
    subst this
    cases g <;> rfl
  | succ f ih =>
    intro g l hf hg
    rcases l with - | ⟨b, r⟩
    · cases g <;> rfl
    rcases g with - | g
    · simp at hg
    simp only [decodeAll]
    have hpos := decodeRune_size_pos b r
    have hle := decodeRune_size_le b r
    refine congrArg _ (ih g _ ?_ ?_) <;>
      simp only [List.length_drop, List.length_cons] at * <;> omega

/-- The decode units of a string concatenate back to the string. -/
theorem units_flatten_aux (f : Nat) : ∀ l : List Nat, l.length ≤ f →
    ((decodeAll f l).map (fun p => p.2)).flatten = l := by
  induction f with
  | zero =>
    intro l hf
    have : l = [] := List.eq_nil_of_length_eq_zero (by omega)
    subst this
    rfl
  | succ f ih =>
    intro l hf
    rcases l with - | ⟨b, r⟩
    · rfl
    simp only [decodeAll, List.map_cons, List.flatten_cons]
    have hpos := decodeRune_size_pos b r
    rw [ih _ (by simp only [List.length_drop, List.length_cons] at *; omega)]
    exact List.take_append_drop _ _

theorem units_flatten (s : List Nat) : ((units s).map (fun p => p.2)).flatten = s :=
  units_flatten_aux s.length s le_rfl

/-- Every non-bad unit produced by decoding carries a valid scalar whose
encoding is the unit's bytes. -/
theorem decodeAll_mem_good (f : Nat) : ∀ (l : List Nat) (p : Nat × List Nat),
    p ∈ decodeAll f l → badUnit p = false →
    validScalar p.1 ∧ encodeRune p.1 = p.2 := by
  induction f with
  | zero => intro l p hp; simp [decodeAll] at hp
  | succ f ih =>
    intro l p hp hgood
    rcases l with - | ⟨b, r⟩
    · simp [decodeAll] at hp
    simp only [decodeAll, List.mem_cons] at hp
    rcases hp with hp | hp
    · subst hp
      have hle := decodeRune_size_le b r
      have htk : ((b :: r).take (decodeRune (b :: r)).2).length = (decodeRune (b :: r)).2 := by
        rw [List.length_take]
        omega
      simp only [badUnit, decide_eq_false_iff_not] at hgood
      rw [htk] at hgood
      exact decodeRune_good b r hgood
    · exact ih _ p hp hgood

/-- `badUnit` is false on the unit an encoded valid scalar produces. -/
theorem badUnit_encode (r : Nat) (h : validScalar r) :
    badUnit (r, encodeRune r) = false := by
  by_cases hr : r = 0xFFFD
  · subst hr
    decide
  · simp [badUnit, hr]

theorem encodeRune_ne_nil (r : Nat) : encodeRune r ≠ [] := by
  unfold encodeRune encodeScalar
  split_ifs <;> simp

/-- Decoding an encoded valid scalar consumes exactly its bytes. -/
theorem decode_encodeScalar (r : Nat) (h : validScalar r) (rest : List Nat) :
    decodeRune (encodeScalar r ++ rest) = (r, (encodeScalar r).length) := by
  have hv := h
  unfold validScalar at hv
  by_cases h80 : r < 0x80
  · rw [show encodeScalar r = [r] from by unfold encodeScalar; rw [if_pos h80]]
    simp [decodeRune, h80]
  by_cases h800 : r < 0x800
  · have hd : decodeRune ((0xC0 + r / 64) :: (0x80 + r % 64) :: rest) = (r, 2) := by
      have h1 : ¬(0xC0 + r / 64 < 0x80) := by omega
      have h2 : 0xC2 ≤ 0xC0 + r / 64 ∧ 0xC0 + r / 64 ≤ 0xDF := by omega
      have h3 : isCont (0x80 + r % 64) = true := by
        simp only [isCont, decide_eq_true_eq]; omega
      simp [decodeRune, h1, h2, h3, Prod.ext_iff]
      all_goals omega
    rw [show encodeScalar r = [0xC0 + r / 64, 0x80 + r % 64] from by
      unfold encodeScalar; rw [if_neg h80, if_pos h800]]
    simp only [List.cons_append, List.nil_append, List.length_cons, List.length_nil]
    rw [hd]
  by_cases h10000 : r < 0x10000
  · have hacc : accept3 (0xE0 + r / 4096) (0x80 + r / 64 % 64) = true := by
      simp only [accept3, isCont]
      split_ifs with hE0 hED <;> simp only [decide_eq_true_eq] <;> omega
    have hd : decodeRune ((0xE0 + r / 4096) :: (0x80 + r / 64 % 64) ::
        (0x80 + r % 64) :: rest) = (r, 3) := by
      have h1 : ¬(0xE0 + r / 4096 < 0x80) := by omega
      have h2 : ¬(0xC2 ≤ 0xE0 + r / 4096 ∧ 0xE0 + r / 4096 ≤ 0xDF) := by omega
      have h3 : 0xE0 ≤ 0xE0 + r / 4096 ∧ 0xE0 + r / 4096 ≤ 0xEF := by omega
      have h4 : isCont (0x80 + r % 64) = true := by
        simp only [isCont, decide_eq_true_eq]; omega
      simp [decodeRune, h1, h2, h3, h4, hacc, Prod.ext_iff]
      all_goals omega
    rw [show encodeScalar r = [0xE0 + r / 4096, 0x80 + r / 64 % 64, 0x80 + r % 64] from by
      unfold encodeScalar; rw [if_neg h80, if_neg h800, if_pos h10000]]
    simp only [List.cons_append, List.nil_append, List.length_cons, List.length_nil]
    rw [hd]
  · have hacc : accept4 (0xF0 + r / 262144) (0x80 + r / 4096 % 64) = true := by
      simp only [accept4, isCont]
      split_ifs with hF0 hF4 <;> simp only [decide_eq_true_eq] <;> omega
    have hd : decodeRune ((0xF0 + r / 262144) :: (0x80 + r / 4096 % 64) ::
        (0x80 + r / 64 % 64) :: (0x80 + r % 64) :: rest) = (r, 4) := by
      have h1 : ¬(0xF0 + r / 262144 < 0x80) := by omega
      have h2 : ¬(0xC2 ≤ 0xF0 + r / 262144 ∧ 0xF0 + r / 262144 ≤ 0xDF) := by omega
      have h3 : ¬(0xE0 ≤ 0xF0 + r / 262144 ∧ 0xF0 + r / 262144 ≤ 0xEF) := by omega
      have h4 : 0xF0 ≤ 0xF0 + r / 262144 ∧ 0xF0 + r / 262144 ≤ 0xF4 := by omega
      have h5 : isCont (0x80 + r / 64 % 64) = true := by
        simp only [isCont, decide_eq_true_eq]; omega
      have h6 : isCont (0x80 + r % 64) = true := by
        simp only [isCont, decide_eq_true_eq]; omega
      simp [decodeRune, h1, h2, h3, h4, h5, h6, hacc, Prod.ext_iff]
      all_goals omega
    rw [show encodeScalar r =
        [0xF0 + r / 262144, 0x80 + r / 4096 % 64, 0x80 + r / 64 % 64, 0x80 + r % 64] from by
      unfold encodeScalar; rw [if_neg h80, if_neg h800, if_neg h10000]]
    simp only [List.cons_append, List.nil_append, List.length_cons, List.length_nil]
    rw [hd]

theorem decode_encode (r : Nat) (h : validScalar r) (rest : List Nat) :
    decodeRune (encodeRune r ++ rest) = (r, (encodeRune r).length) := by
  rw [encodeRune_eq_scalar _ h]
  exact decode_encodeScalar r h rest

/-- Prepending an encoded valid scalar prepends one decode unit. -/
theorem units_cons_encode (r : Nat) (h : validScalar r) (rest : List Nat) :
    units (encodeRune r ++ rest) = (r, encodeRune r) :: units rest := by
  rcases henc : encodeRune r with - | ⟨e0, et⟩
  · exact absurd henc (encodeRune_ne_nil r)
  have hdec : decodeRune (e0 :: (et ++ rest)) = (r, (e0 :: et).length) := by
    have hd := decode_encode r h rest
    rw [henc] at hd
    simpa using hd
  have htake : (e0 :: (et ++ rest)).take (e0 :: et).length = e0 :: et := by
    rw [show (e0 :: (et ++ rest)) = (e0 :: et) ++ rest from by simp]
    exact List.take_left _ _
  have hdrop : (e0 :: (et ++ rest)).drop (e0 :: et).length = rest := by
    rw [show (e0 :: (et ++ rest)) = (e0 :: et) ++ rest from by simp]
    exact List.drop_left _ _
  unfold units
  simp only [List.cons_append, List.length_cons, List.length_append]
  simp only [decodeAll]
  rw [hdec]
  dsimp only
  rw [htake, hdrop]
  refine congrArg _ ?_
  apply decodeAll_fuel
  · omega
  · exact le_rfl

/-- A concatenation of encodings of valid scalars is a valid UTF-8 string. -/
theorem utf8Valid_flatten_encode (rs : List Nat) (h : ∀ r ∈ rs, validScalar r) :
    utf8Valid ((rs.map encodeRune).flatten) = true := by
  induction rs with
  | nil => decide
  | cons r rs ih =>
    have hr : validScalar r := h r (by simp)
    simp only [List.map_cons, List.flatten_cons]
    unfold utf8Valid
    rw [units_cons_encode r hr]
    simp only [List.all_cons, Bool.and_eq_true, Bool.not_eq_true']
    exact ⟨badUnit_encode r hr, ih (fun x hx => h x (by simp [hx]))⟩

theorem utf8Valid_iff_units (s : List Nat) :
    utf8Valid s = true ↔ ∀ p ∈ units s, badUnit p = false := by
  unfold utf8Valid
  rw [List.all_eq_true]
  constructor
  · intro h p hp
    simpa using h p hp
  · intro h p hp
    simpa using h p hp

/-- `cleanUTF8String` replaces each invalid single-byte unit by one space and
keeps every other decode unit byte-for-byte. -/
theorem cleanUTF8String_units (s : List Nat) :
    cleanUTF8String s =
      ((units s).map (fun p => if badUnit p then [32] else p.2)).flatten := by
  unfold cleanUTF8String
  split_ifs with hv
  · have hall := (utf8Valid_iff_units s).mp hv
    rw [List.map_congr_left (g := fun p : Nat × List Nat => p.2)
      (fun p hp => by simp [hall p hp])]
    exact (units_flatten s).symm
  · unfold cleanRunes
    rw [List.map_map]
    refine congrArg _ (List.map_congr_left ?_)
    intro p hp
    simp only [Function.comp_apply]
    by_cases hb : badUnit p = true
    · rw [if_pos hb, if_pos hb]
      decide
    · rw [if_neg hb, if_neg hb]
      exact (decodeAll_mem_good _ _ p hp (by simpa using hb)).2

theorem cleanUTF8String_valid (s : List Nat) : utf8Valid (cleanUTF8String s) = true := by
  unfold cleanUTF8String
  split_ifs with hv
  · exact hv
  · apply utf8Valid_flatten_encode
    intro r hr
    unfold cleanRunes at hr
    simp only [List.mem_map] at hr
    obtain ⟨p, hp, hr⟩ := hr
    subst hr
    by_cases hb : badUnit p = true
    · rw [if_pos hb]
      exact ⟨by omega, by omega⟩
    · rw [if_neg hb]
      exact (decodeAll_mem_good _ _ p hp (by simpa using hb)).1

theorem cleanUTF8String_of_valid (s : List Nat) (h : utf8Valid s = true) :
    cleanUTF8String s = s := by
  unfold cleanUTF8String
  rw [if_pos h]

theorem cleanUTF8String_idem (s : List Nat) :
    cleanUTF8String (cleanUTF8String s) = cleanUTF8String s :=
  cleanUTF8String_of_valid _ (cleanUTF8String_valid s)

/-- Sanitizing a non-empty string yields a non-empty string. -/
theorem cleanUTF8String_ne_nil (s : List Nat) (h : s ≠ []) : cleanUTF8String s ≠ [] := by
  rcases s with - | ⟨b, r⟩
  · exact absurd rfl h
  rw [cleanUTF8String_units]
  unfold units
  simp only [List.length_cons, decodeAll]
  simp only [List.map_cons, List.flatten_cons]
  intro hcontra
  rcases List.append_eq_nil.mp hcontra with ⟨h1, -⟩
  revert h1
  split_ifs with hb
  · simp
  · have hpos := decodeRune_size_pos b r
    intro h1
    rcases List.take_eq_nil_iff.mp h1 with h2 | h2
    · omega
    · simp at h2

/-- C5: `cleanUTF8String` is idempotent (applying it twice equals applying it
once); its output is always a valid UTF-8 string regardless of input; an
already-valid input is returned unchanged; and the output is exactly the
input's decode units with every invalid single-byte unit replaced by a single
space (byte 32) and every valid unit preserved byte-for-byte. -/
theorem C5_cleanUTF8String_spec :
    (∀ s : List Nat, cleanUTF8String (cleanUTF8String s) = cleanUTF8String s) ∧
    (∀ s : List Nat, utf8Valid (cleanUTF8String s) = true) ∧
    (∀ s : List Nat, utf8Valid s = true → cleanUTF8String s = s) ∧
    (∀ s : List Nat,
      cleanUTF8String s =
        ((units s).map (fun p => if badUnit p then [32] else p.2)).flatten) :=
  ⟨cleanUTF8String_idem, cleanUTF8String_valid, cleanUTF8String_of_valid, cleanUTF8String_units⟩

/-- Witness for C5 at the concrete valid input "hi". -/
theorem C5_cleanUTF8String_spec_witness :
    cleanUTF8String [104, 105] = [104, 105] :=
  C5_cleanUTF8String_spec.2.2.1 [104, 105] (by decide)

/-! ## `strings.TrimSpace` model

Semantic model of Go's `strings.TrimSpace`: drop the maximal run of
Unicode-whitespace runes from both ends.  We realize it on the decode
units; an invalid unit carries rune U+FFFD, which is not whitespace, so
it stops trimming exactly as in Go. -/

/-- Unicode `White_Space` code points (`unicode.IsSpace`). -/
def isSpaceRune (r : Nat) : Bool :=
  decide (r = 9 ∨ r = 10 ∨ r = 11 ∨ r = 12 ∨ r = 13 ∨ r = 32 ∨ r = 0x85 ∨ r = 0xA0 ∨
    r = 0x1680 ∨ (0x2000 ≤ r ∧ r ≤ 0x200A) ∨ r = 0x2028 ∨ r = 0x2029 ∨ r = 0x202F ∨
    r = 0x205F ∨ r = 0x3000)

/-- Model of `strings.TrimSpace` on byte strings. -/
def trimSpace (s : List Nat) : List Nat :=
  (((((units s).dropWhile (fun p => isSpaceRune p.1)).reverse.dropWhile
      (fun p => isSpaceRune p.1)).reverse).map (fun p => p.2)).flatten

example : trimSpace (ascii "  a b  ") = ascii "a b" := by decide
example : trimSpace (ascii "abc") = ascii "abc" := by decide
example : trimSpace (ascii "   ") = [] := by decide
example : trimSpace [] = [] := by decide

/-! ## Firestore document-ID transformation

The source inlines the same eight `strings.ReplaceAll` calls plus a
500-byte truncation in `articleExistsInFirestore` (lines 86-97),
`updateArticleAISummaryToEmpty` (lines 131-142) and
`saveArticleToFirestore` (lines 166-177).  Each is transcribed
separately so their agreement is a theorem, not an assumption. -/

/-- `strings.ReplaceAll` for a single-byte pattern and single-byte
replacement: a byte-wise map. -/
def replaceByte (a b : Nat) (s : List Nat) : List Nat :=
  s.map (fun c => if c = a then b else c)

/-- The docID computation of `articleExistsInFirestore` (lines 86-97). -/
def docIDExists (url : List Nat) : List Nat :=
  let d1 := replaceByte 47 95 url
  let d2 := replaceByte 58 95 d1
  let d3 := replaceByte 63 95 d2
  let d4 := replaceByte 38 95 d3
  let d5 := replaceByte 61 95 d4
  let d6 := replaceByte 35 95 d5
  let d7 := replaceByte 37 95 d6
  let d8 := replaceByte 46 95 d7
  if 500 < d8.length then d8.take 500 else d8

/-- The docID computation of `updateArticleAISummaryToEmpty` (lines 131-142). -/
def docIDUpdate (url : List Nat) : List Nat :=
  let d1 := replaceByte 47 95 url
  let d2 := replaceByte 58 95 d1
  let d3 := replaceByte 63 95 d2
  let d4 := replaceByte 38 95 d3
  let d5 := replaceByte 61 95 d4
  let d6 := replaceByte 35 95 d5
  let d7 := replaceByte 37 95 d6
  let d8 := replaceByte 46 95 d7
  if 500 < d8.length then d8.take 500 else d8

/-- The docID computation of `saveArticleToFirestore` (lines 166-177). -/
def docIDSave (url : List Nat) : List Nat :=
  let d1 := replaceByte 47 95 url
  let d2 := replaceByte 58 95 d1
  let d3 := replaceByte 63 95 d2
  let d4 := replaceByte 38 95 d3
  let d5 := replaceByte 61 95 d4
  let d6 := replaceByte 35 95 d5
  let d7 := replaceByte 37 95 d6
  let d8 := replaceByte 46 95 d7
  if 500 < d8.length then d8.take 500 else d8

/-- The byte substitution the docID transformation performs: any of
`/ : ? & = # % .` becomes `_` (95). -/
def keyChar (c : Nat) : Nat :=
  if c = 47 ∨ c = 58 ∨ c = 63 ∨ c = 38 ∨ c = 61 ∨ c = 35 ∨ c = 37 ∨ c = 46 then 95 else c

theorem docIDSave_eq_map_take (u : List Nat) :
    docIDSave u = (u.map keyChar).take 500 := by
  unfold docIDSave replaceByte
  simp only [List.map_map]
  have hmap : ∀ c : Nat,
      (fun c => if c = 46 then 95 else c)
        ((fun c => if c = 37 then 95 else c)
          ((fun c => if c = 35 then 95 else c)
            ((fun c => if c = 61 then 95 else c)
              ((fun c => if c = 38 then 95 else c)
                ((fun c => if c = 63 then 95 else c)
                  ((fun c => if c = 58 then 95 else c)
                    ((fun c => if c = 47 then 95 else c) c))))))) = keyChar c := by
    intro c
    unfold keyChar
    by_cases h47 : c = 47 <;> by_cases h58 : c = 58 <;> by_cases h63 : c = 63 <;>
      by_cases h38 : c = 38 <;> simp_all <;>
      by_cases h61 : c = 61 <;> by_cases h35 : c = 35 <;> by_cases h37 : c = 37 <;>
      by_cases h46 : c = 46 <;> simp_all
  rw [show ((fun c => if c = 46 then 95 else c) ∘
      ((fun c => if c = 37 then 95 else c) ∘
        ((fun c => if c = 35 then 95 else c) ∘
          ((fun c => if c = 61 then 95 else c) ∘
            ((fun c => if c = 38 then 95 else c) ∘
              ((fun c => if c = 63 then 95 else c) ∘
                ((fun c => if c = 58 then 95 else c) ∘
                  (fun c => if c = 47 then 95 else c)))))))) = keyChar from
    funext fun c => hmap c]
  split_ifs with h
  · rfl
  · rw [List.take_of_length_le]
    simp only [List.length_map] at h ⊢
    omega

/-- C6 counterexample: the store-key transformation is not collision-avoiding.
The distinct canonical URLs "a/b" and "a:b" map to the same store key "a_b". -/
theorem C6_docID_counterexample :
    docIDSave [97, 47, 98] = docIDSave [97, 58, 98] ∧
      ([97, 47, 98] : List Nat) ≠ [97, 58, 98] := by
  exact ⟨by decide, by decide⟩

/-- C6 (amended): the store-key transformation replaces every occurrence of
`/ : ? & = # % .` with `_` and truncates to at most 500 bytes; it is
deterministic (a pure function of the URL) and literally identical across the
lookup, update and save operations.  It is, however, not collision-avoiding
(see the counterexample theorem). -/
theorem C6_docID_spec :
    (∀ u : List Nat, docIDExists u = docIDSave u ∧ docIDUpdate u = docIDSave u) ∧
    (∀ u : List Nat, docIDSave u = (u.map keyChar).take 500) ∧
    (∀ u : List Nat, (docIDSave u).length ≤ 500) := by
  refine ⟨fun u => ⟨rfl, rfl⟩, docIDSave_eq_map_take, fun u => ?_⟩
  rw [docIDSave_eq_map_take]
  simp only [List.length_take]
  omega

/-! ## URL reconstruction (part_002 lines 257-258, 371-381)

The patterns `article_id=(\d+)` and `office_id=(\d+)` are literal ASCII
text followed by one-or-more ASCII digits.  Go's regexp returns the
leftmost match, with the greedy `\d+` capturing the maximal digit run at
that position; `findCapture` realizes exactly that. -/

/-- ASCII digit test (`\d` in Go regexp). -/
def isDigit (b : Nat) : Bool := decide (48 ≤ b ∧ b ≤ 57)

/-- The maximal digit run following the literal pattern at the head of `s`. -/
def digitsAfter (pat s : List Nat) : List Nat :=
  (s.drop pat.length).takeWhile isDigit

/-- Does `pat` followed by at least one digit match at the head of `s`? -/
def tokenHere (pat s : List Nat) : Bool :=
  decide (s.take pat.length = pat) && !(digitsAfter pat s).isEmpty

/-- Leftmost match of `pat(\d+)`: the captured digit run, if any position
matches (model of `regexp.FindStringSubmatch` for these two patterns). -/
def findCapture (pat : List Nat) : List Nat → Option (List Nat)
  | [] => if tokenHere pat [] then some (digitsAfter pat []) else none
  | b :: t =>
    if tokenHere pat (b :: t) then some (digitsAfter pat (b :: t))
    else findCapture pat t

/-- The canonical-URL reconstruction of `CrawlNaverFinanceNews`
(part_002 lines 371-381): if both `article_id` and `office_id` digits are
extractable, `articleBase/officeID/articleID`; otherwise the site origin
plus the listing link verbatim. -/
def reconstructURL (articleBase link : List Nat) : List Nat :=
  match findCapture (ascii "article_id=") link, findCapture (ascii "office_id=") link with
  | some aid, some oid => articleBase ++ [47] ++ oid ++ [47] ++ aid
  | _, _ => ascii "https://finance.naver.com" ++ link

example :
    reconstructURL (ascii "https://n.news.naver.com/mnews/article")
      (ascii "/news/news_read.naver?article_id=0005132&office_id=0277&mode=mainnews") =
    ascii "https://n.news.naver.com/mnews/article/0277/0005132" := by decide

example :
    reconstructURL (ascii "base") (ascii "/news/read?id=3") =
    ascii "https://finance.naver.com/news/read?id=3" := by decide

/-- `findCapture` succeeds exactly when the pattern (with at least one digit
after it) matches at some position. -/
theorem findCapture_isSome (pat : List Nat) : ∀ s : List Nat,
    (findCapture pat s).isSome = true ↔ ∃ i, tokenHere pat (s.drop i) = true := by
  intro s
  induction s with
  | nil =>
    simp only [findCapture]
    split_ifs with h
    · exact ⟨fun _ => ⟨0, h⟩, fun _ => rfl⟩
    · constructor
      · intro hs
        simp at hs
      · rintro ⟨i, hi⟩
        rw [List.drop_nil] at hi
        exact absurd hi h
  | cons b t ih =>
    simp only [findCapture]
    split_ifs with h
    · simp only [Option.isSome_some, true_iff]
      exact ⟨0, by simpa using h⟩
    · rw [ih]
      constructor
      · rintro ⟨i, hi⟩
        exact ⟨i + 1, by simpa using hi⟩
      · rintro ⟨i, hi⟩
        cases i with
        | zero => exact absurd (by simpa using hi) h
        | succ j => exact ⟨j, by simpa using hi⟩

/-- C9: URL reconstruction is a deterministic function of the listing link;
when the link contains both an `article_id=<digits>` token and an
`office_id=<digits>` token, the canonical URL is exactly the article base,
a slash, the office ID, a slash and the article ID; for every other link it
is the site origin `https://finance.naver.com` plus the link verbatim. -/
theorem C9_reconstructURL_spec :
    (∀ base l1 l2 : List Nat, l1 = l2 →
      reconstructURL base l1 = reconstructURL base l2) ∧
    (∀ base link : List Nat,
      ((∃ i, tokenHere (ascii "article_id=") (link.drop i) = true) ∧
       (∃ i, tokenHere (ascii "office_id=") (link.drop i) = true)) →
      ∃ aid oid, findCapture (ascii "article_id=") link = some aid ∧
        findCapture (ascii "office_id=") link = some oid ∧
        reconstructURL base link = base ++ [47] ++ oid ++ [47] ++ aid) ∧
    (∀ base link : List Nat,
      ¬((∃ i, tokenHere (ascii "article_id=") (link.drop i) = true) ∧
        (∃ i, tokenHere (ascii "office_id=") (link.drop i) = true)) →
      reconstructURL base link = ascii "https://finance.naver.com" ++ link) := by
  refine ⟨fun base l1 l2 h => by rw [h], ?_, ?_⟩
  · intro base link h
    obtain ⟨hA, hB⟩ := h
    rw [← findCapture_isSome] at hA hB
    obtain ⟨aid, hA⟩ := Option.isSome_iff_exists.mp hA
    obtain ⟨oid, hB⟩ := Option.isSome_iff_exists.mp hB
    refine ⟨aid, oid, hA, hB, ?_⟩
    unfold reconstructURL
    rw [hA, hB]
  · intro base link h
    rcases hA : findCapture (ascii "article_id=") link with - | aid <;>
      rcases hB : findCapture (ascii "office_id=") link with - | oid <;>
      unfold reconstructURL <;> rw [hA, hB]
    exact absurd ⟨(findCapture_isSome _ link).mp (by rw [hA]; rfl),
      (findCapture_isSome _ link).mp (by rw [hB]; rfl)⟩ h

/-- Witness for C9 at a concrete link carrying both ID tokens. -/
theorem C9_reconstructURL_spec_witness :
    reconstructURL (ascii "base") (ascii "x?article_id=12&office_id=34") =
      ascii "base" ++ [47] ++ ascii "34" ++ [47] ++ ascii "12" := by
  obtain ⟨aid, oid, hA, hB, hre⟩ :=
    C9_reconstructURL_spec.2.1 (ascii "base") (ascii "x?article_id=12&office_id=34")
      ⟨⟨2, by decide⟩, ⟨16, by decide⟩⟩
  have hA2 : aid = ascii "12" := by
    have h : some aid = some (ascii "12") := by rw [← hA]; decide
    exact Option.some.inj h
  have hB2 : oid = ascii "34" := by
    have h : some oid = some (ascii "34") := by rw [← hB]; decide
    exact Option.some.inj h
  rw [hre, hA2, hB2]

/-! ## Article-body fetch loop (part_002 lines 402-473)

Each attempt's external outcome is an oracle value: whether
`http.NewRequest` succeeded, and if so the response (transport error, or a
status code together with what reading/parsing the body yields).  For a
found body container the oracle carries the container's text after the
`Remove` of the listed non-content sub-nodes. -/

/-- Outcome of reading and parsing an article response body. -/
inductive ArticleDoc
  | readErr
  | parseErr
  | noBodyDiv
  | bodyDiv (text : List Nat)
deriving DecidableEq

/-- Outcome of `articleClient.Do`. -/
inductive ArticleResp
  | transportErr
  | response (code : Nat) (doc : ArticleDoc)
deriving DecidableEq

/-- One attempt's oracle: request construction success and the response. -/
structure ArticleAttempt where
  reqOK : Bool
  resp : ArticleResp
deriving DecidableEq

/-- The `for retry := 0; retry < 3; retry++` loop, structurally recursive on
the remaining iteration count (`remaining = 3 - retry` at every call).
Returns the final content, the number of iterations entered, and the list of
sleep durations (in seconds) performed. -/
def fetchLoopAux (env : Nat → ArticleAttempt) :
    Nat → Nat → List Nat → List Nat × Nat × List Nat
  | 0, _, content => (content, 0, [])
  | remaining + 1, retry, content =>
    let a := env retry
    if a.reqOK = false then (content, 1, [])
    else
      match a.resp with
      | .transportErr =>
        let sl := if retry < 2 then [1 + retry] else ([] : List Nat)
        let q := fetchLoopAux env remaining (retry + 1) content
        (q.1, q.2.1 + 1, sl ++ q.2.2)
      | .response code doc =>
        if code ≠ 200 then (content, 1, [])
        else
          match doc with
          | .readErr => (content, 1, [])
          | .parseErr => (content, 1, [])
          | .noBodyDiv => (content, 1, [])
          | .bodyDiv t => (trimSpace t, 1, [])

/-- The whole bounded-retry loop: three iterations available, starting at
retry 0 with the listing summary as fallback content. -/
def fetchLoop (env : Nat → ArticleAttempt) (summary : List Nat) :
    List Nat × Nat × List Nat :=
  fetchLoopAux env 3 0 summary

/-- An attempt whose request was issued and met a transport error — the only
outcome that continues the loop. -/
def isTransport (a : ArticleAttempt) : Prop :=
  a.reqOK = true ∧ a.resp = .transportErr

instance (a : ArticleAttempt) : Decidable (isTransport a) := by
  unfold isTransport
  infer_instance

theorem fetchLoopAux_nontransport (env : Nat → ArticleAttempt) (n i : Nat) (s : List Nat)
    (h : ¬ isTransport (env i)) :
    (fetchLoopAux env (n + 1) i s).2.1 = 1 ∧ (fetchLoopAux env (n + 1) i s).2.2 = [] := by
  unfold isTransport at h
  push_neg at h
  unfold fetchLoopAux
  rcases hq : (env i).reqOK with - | -
  · simp [hq]
  · rcases hr : (env i).resp with - | ⟨code, doc⟩
    · exact absurd hr (h hq)
    · rcases doc <;> simp [hq, hr] <;> split_ifs <;> simp

theorem fetchLoopAux_transport (env : Nat → ArticleAttempt) (n i : Nat) (s : List Nat)
    (h : isTransport (env i)) :
    fetchLoopAux env (n + 1) i s =
      ((fetchLoopAux env n (i + 1) s).1, (fetchLoopAux env n (i + 1) s).2.1 + 1,
        (if i < 2 then [1 + i] else []) ++ (fetchLoopAux env n (i + 1) s).2.2) := by
  obtain ⟨h1, h2⟩ := h
  conv_lhs => unfold fetchLoopAux
  simp [h1, h2]

/-- C3: the body-fetch loop makes at most 3 attempts; a further attempt
follows only a transport error; the sleep list is 1 second after the first
failed attempt and 2 after the second, never after the last; and any
non-transport outcome (request-construction error, non-2xx status, read or
parse failure, found body, missing body) ends the loop at that attempt. -/
theorem C3_fetch_retry_spec (env : Nat → ArticleAttempt) (s : List Nat) :
    (fetchLoop env s).2.1 ≤ 3 ∧
    (∀ k : Nat, k + 1 < (fetchLoop env s).2.1 → isTransport (env k)) ∧
    (fetchLoop env s).2.2 =
      (List.range ((fetchLoop env s).2.1 - 1)).map (fun k => k + 1) ∧
    (∀ k : Nat, k < (fetchLoop env s).2.1 → ¬ isTransport (env k) →
      (fetchLoop env s).2.1 = k + 1) := by
  unfold fetchLoop
  have e0 : fetchLoopAux env 3 0 s = fetchLoopAux env (2 + 1) 0 s := rfl
  have e1 : fetchLoopAux env 2 1 s = fetchLoopAux env (1 + 1) 1 s := rfl
  have e2 : fetchLoopAux env 1 2 s = fetchLoopAux env (0 + 1) 2 s := rfl
  by_cases t0 : isTransport (env 0)
  · rw [e0, fetchLoopAux_transport env 2 0 s t0]
    by_cases t1 : isTransport (env 1)
    · rw [e1, fetchLoopAux_transport env 1 1 s t1]
      have h2 : (fetchLoopAux env 1 2 s).2.1 = 1 ∧ (fetchLoopAux env 1 2 s).2.2 = [] := by
        by_cases t2 : isTransport (env 2)
        · rw [e2, fetchLoopAux_transport env 0 2 s t2]
          exact ⟨rfl, rfl⟩
        · exact e2 ▸ fetchLoopAux_nontransport env 0 2 s t2
      rw [h2.1, h2.2]
      refine ⟨by norm_num, ?_, by dsimp only; decide, ?_⟩
      · intro k hk
        simp only at hk
        have hk2 : k = 0 ∨ k = 1 := by omega
        rcases hk2 with h | h <;> subst h
        · exact t0
        · exact t1
      · intro k hk hnt
        simp only at hk ⊢
        have hk2 : k = 0 ∨ k = 1 ∨ k = 2 := by omega
        rcases hk2 with h | h | h <;> subst h
        · exact absurd t0 hnt
        · exact absurd t1 hnt
        · rfl
    · obtain ⟨hN, hS⟩ := e1 ▸ fetchLoopAux_nontransport env 1 1 s t1
      rw [hN, hS]
      refine ⟨by norm_num, ?_, by dsimp only; decide, ?_⟩
      · intro k hk
        simp only at hk
        have hk2 : k = 0 := by omega
        subst hk2
        exact t0
      · intro k hk hnt
        simp only at hk ⊢
        have hk2 : k = 0 ∨ k = 1 := by omega
        rcases hk2 with h | h <;> subst h
        · exact absurd t0 hnt
        · rfl
  · obtain ⟨hN, hS⟩ := e0 ▸ fetchLoopAux_nontransport env 2 0 s t0
    rw [hN, hS]
    refine ⟨by norm_num, ?_, by decide, ?_⟩
    · intro k hk
      exact absurd hk (by omega)
    · intro k hk hnt
      have hk2 : k = 0 := by omega
      subst hk2
      rfl

/-- Concrete fetch oracle: transport error on attempt 0, found body after. -/
def envC3 : Nat → ArticleAttempt := fun k =>
  if k = 0 then ⟨true, .transportErr⟩
  else ⟨true, .response 200 (.bodyDiv (ascii "body text"))⟩

/-- Witness for C3: a transport error then a found body stops after 2 attempts. -/
theorem C3_fetch_retry_spec_witness :
    (fetchLoop envC3 (ascii "teaser")).2.1 = 2 :=
  (C3_fetch_retry_spec envC3 (ascii "teaser")).2.2.2 1 (by decide) (by decide)

/-- An attempt that issued its request, got status 200, and found the body
container with text `t`. -/
def foundAttempt (a : ArticleAttempt) (t : List Nat) : Prop :=
  a.reqOK = true ∧ a.resp = .response 200 (.bodyDiv t)

instance (a : ArticleAttempt) (t : List Nat) : Decidable (foundAttempt a t) := by
  unfold foundAttempt
  infer_instance

theorem transport_not_found (a : ArticleAttempt) (h : isTransport a) (t : List Nat) :
    ¬ foundAttempt a t := by
  obtain ⟨-, h2⟩ := h
  rintro ⟨-, g2⟩
  rw [h2] at g2
  exact ArticleResp.noConfusion g2

/-- Content of one terminal (non-transport) iteration: either the body was
found and the content is its trimmed text, or the attempt found no body and
the content passes through unchanged. -/
theorem fetchLoopAux_nontransport_content (env : Nat → ArticleAttempt) (n i : Nat)
    (s : List Nat) (h : ¬ isTransport (env i)) :
    (∃ t, foundAttempt (env i) t ∧ (fetchLoopAux env (n + 1) i s).1 = trimSpace t) ∨
    ((∀ t, ¬ foundAttempt (env i) t) ∧ (fetchLoopAux env (n + 1) i s).1 = s) := by
  unfold isTransport at h
  push_neg at h
  unfold foundAttempt
  rcases hq : (env i).reqOK with - | -
  · refine Or.inr ⟨?_, ?_⟩
    · rintro t ⟨g1, -⟩
      exact Bool.noConfusion g1
    · unfold fetchLoopAux
      simp [hq]
  · rcases hr : (env i).resp with - | ⟨code, doc⟩
    · exact absurd hr (h hq)
    · by_cases hc : code = 200
      · subst hc
        rcases doc with - | - | - | t
        · refine Or.inr ⟨?_, by unfold fetchLoopAux; simp [hq, hr]⟩
          rintro t ⟨-, g2⟩
          simp at g2
        · refine Or.inr ⟨?_, by unfold fetchLoopAux; simp [hq, hr]⟩
          rintro t ⟨-, g2⟩
          simp at g2
        · refine Or.inr ⟨?_, by unfold fetchLoopAux; simp [hq, hr]⟩
          rintro t ⟨-, g2⟩
          simp at g2
        · refine Or.inl ⟨t, ⟨rfl, rfl⟩, ?_⟩
          unfold fetchLoopAux
          simp [hq, hr]
      · refine Or.inr ⟨?_, by unfold fetchLoopAux; simp [hq, hr, hc]⟩
        rintro t ⟨-, g2⟩
        simp [hc] at g2

/-- Content characterization of the whole loop: the final content is the
trimmed text of the (unique, final) attempt that found the body container,
and is the unchanged fallback if no entered attempt found it. -/
theorem fetchLoop_content (env : Nat → ArticleAttempt) (s : List Nat) :
    (∃ k t, k < (fetchLoop env s).2.1 ∧ foundAttempt (env k) t ∧
      (fetchLoop env s).1 = trimSpace t) ∨
    ((∀ k, k < (fetchLoop env s).2.1 → ∀ t, ¬ foundAttempt (env k) t) ∧
      (fetchLoop env s).1 = s) := by
  unfold fetchLoop
  have e0 : fetchLoopAux env 3 0 s = fetchLoopAux env (2 + 1) 0 s := rfl
  have e1 : fetchLoopAux env 2 1 s = fetchLoopAux env (1 + 1) 1 s := rfl
  have e2 : fetchLoopAux env 1 2 s = fetchLoopAux env (0 + 1) 2 s := rfl
  by_cases t0 : isTransport (env 0)
  · rw [e0, fetchLoopAux_transport env 2 0 s t0]
    by_cases t1 : isTransport (env 1)
    · rw [e1, fetchLoopAux_transport env 1 1 s t1]
      by_cases t2 : isTransport (env 2)
      · rw [e2, fetchLoopAux_transport env 0 2 s t2]
        refine Or.inr ⟨?_, rfl⟩
        intro k hk t
        simp only [fetchLoopAux] at hk
        have hk2 : k = 0 ∨ k = 1 ∨ k = 2 := by omega
        rcases hk2 with h | h | h <;> subst h
        · exact transport_not_found _ t0 t
        · exact transport_not_found _ t1 t
        · exact transport_not_found _ t2 t
      · obtain ⟨hN2, -⟩ := e2 ▸ fetchLoopAux_nontransport env 0 2 s t2
        rcases e2 ▸ fetchLoopAux_nontransport_content env 0 2 s t2 with ⟨t, hf, hc⟩ | ⟨hnf, hc⟩
        · refine Or.inl ⟨2, t, ?_, hf, ?_⟩
          · simp only
            rw [hN2]
            omega
          · simpa using hc
        · refine Or.inr ⟨?_, by simpa using hc⟩
          intro k hk t
          simp only [hN2] at hk
          have hk2 : k = 0 ∨ k = 1 ∨ k = 2 := by omega
          rcases hk2 with h | h | h <;> subst h
          · exact transport_not_found _ t0 t
          · exact transport_not_found _ t1 t
          · exact hnf t
    · obtain ⟨hN1, -⟩ := e1 ▸ fetchLoopAux_nontransport env 1 1 s t1
      rcases e1 ▸ fetchLoopAux_nontransport_content env 1 1 s t1 with ⟨t, hf, hc⟩ | ⟨hnf, hc⟩
      · refine Or.inl ⟨1, t, ?_, hf, ?_⟩
        · simp only
          rw [hN1]
          omega
        · simpa using hc
      · refine Or.inr ⟨?_, by simpa using hc⟩
        intro k hk t
        simp only [hN1] at hk
        have hk2 : k = 0 ∨ k = 1 := by omega
        rcases hk2 with h | h <;> subst h
        · exact transport_not_found _ t0 t
        · exact hnf t
  · obtain ⟨hN0, -⟩ := e0 ▸ fetchLoopAux_nontransport env 2 0 s t0
    rcases e0 ▸ fetchLoopAux_nontransport_content env 2 0 s t0 with ⟨t, hf, hc⟩ | ⟨hnf, hc⟩
    · refine Or.inl ⟨0, t, by rw [hN0]; omega, hf, hc⟩
    · refine Or.inr ⟨?_, hc⟩
      intro k hk t
      rw [hN0] at hk
      have hk2 : k = 0 := by omega
      subst hk2
      exact hnf t

/-! ## The crawl pipeline (part_002 lines 252-507)

The Firestore store is an association list keyed by document ID (first
match wins, so prepending models a write).  A stored document either
converts to a `NewsArticle` (`DataTo` succeeds) or does not.  Every store
and network operation the crawl issues is recorded in an event trace.
Oracle values describe the outcome of each external call: the listing
fetch of each page, infrastructure failures of the Firestore client, and
the per-attempt article-fetch outcomes. -/

/-- The persisted record (struct `NewsArticle`); `collectedAt` models
`time.Now()`, supplied per item. -/
structure NewsArticle where
  title : GoStr
  summary : GoStr
  content : GoStr
  aiSummary : GoStr
  source : GoStr
  url : GoStr
  collectedAt : Nat
deriving DecidableEq

/-- A stored Firestore document: convertible to a `NewsArticle` or not
(`DataTo` failure). -/
inductive StoredDoc
  | good (a : NewsArticle)
  | bad
deriving DecidableEq

/-- The `newsArticles` collection, keyed by document ID. -/
abbrev Store := List (GoStr × StoredDoc)

def storeGet (st : Store) (k : GoStr) : Option StoredDoc :=
  (st.find? (fun e => decide (e.1 = k))).map (fun e => e.2)

/-- A full-overwrite write (`Doc(docID).Set`). -/
def storeSet (st : Store) (k : GoStr) (v : StoredDoc) : Store := (k, v) :: st

/-- The field-level update issued by `updateArticleAISummaryToEmpty`:
sets the `aiSummary` field to the empty string; fails when the document
does not exist. -/
def storeUpdateAI (st : Store) (k : GoStr) : Option Store :=
  match storeGet st k with
  | none => none
  | some (.good a) => some ((k, .good { a with aiSummary := [] }) :: st)
  | some .bad => some ((k, .bad) :: st)

/-- Store and network operations issued during a crawl, in order. -/
inductive Event
  | pageRequest (pageNum : Int)
  | articleRequest (url : GoStr) (retry : Nat)
  | storeLookup (key : GoStr)
  | storeUpdate (key : GoStr)
  | storeSave (key : GoStr) (a : NewsArticle)
deriving DecidableEq

/-- Infrastructure outcome of one `articleExistsInFirestore` call: the
Firestore client handle may fail to open, or the `Get` itself may fail. -/
inductive LookupInfra
  | ok
  | clientError
  | getError
deriving DecidableEq

/-- Result of the duplicate check as its caller sees it. -/
inductive ExistsResult
  | err
  | noDoc
  | existsBad
  | existsRec (a : NewsArticle)
deriving DecidableEq

/-- Model of `articleExistsInFirestore` (lines 75-117): on client error no
lookup is issued; on `Get` error an error is returned; a missing document
reports not-found; a present document converts (or fails `DataTo`, which
reports exists-with-error).  Returns the caller-visible result and the
store operations issued. -/
def articleExistsInFirestore (infra : LookupInfra) (st : Store) (url : GoStr) :
    ExistsResult × List Event :=
  match infra with
  | .clientError => (.err, [])
  | .getError => (.err, [.storeLookup (docIDExists url)])
  | .ok =>
    match storeGet st (docIDExists url) with
    | none => (.noDoc, [.storeLookup (docIDExists url)])
    | some .bad => (.existsBad, [.storeLookup (docIDExists url)])
    | some (.good a) => (.existsRec a, [.storeLookup (docIDExists url)])

/-- One listing item's extracted fields (the values of `title`,
`originalLink`, `summaryText`, `sourceText` at line 364) together with the
oracle outcomes of the external calls its processing may make. -/
structure ItemCase where
  title : GoStr
  link : GoStr
  summary : GoStr
  source : GoStr
  now : Nat
  lookupInfra : LookupInfra
  updateFails : Bool
  saveFails : Bool
  fetch : Nat → ArticleAttempt

/-- Configuration (config.go): the two base URLs. -/
structure Config where
  naverFinanceBaseURL : GoStr
  naverArticleBaseURL : GoStr

/-- Crawl state threaded through the run: the store, the event trace so
far, and `allNews`. -/
structure CrawlState where
  store : Store
  events : List Event
  allNews : List NewsArticle
deriving DecidableEq

/-- The article GET requests actually issued by the fetch loop: one per
entered attempt whose `http.NewRequest` succeeded. -/
def articleRequests (env : Nat → ArticleAttempt) (url : GoStr) (n : Nat) : List Event :=
  (List.range n).filterMap
    (fun k => if (env k).reqOK then some (.articleRequest url k) else none)

/-- The per-item body of `CrawlNaverFinanceNews` (the `newsItems.Each`
closure, lines 327-500): validation, URL reconstruction, duplicate check,
conditional aiSummary normalization, article fetch, sanitization,
persistence. -/
def processItem (cfg : Config) (st : CrawlState) (it : ItemCase) : CrawlState :=
  if it.title = [] ∨ it.summary = [] ∨ it.source = [] ∨ it.link = [] then st
  else
    let fullArticleURL := reconstructURL cfg.naverArticleBaseURL it.link
    let ex := articleExistsInFirestore it.lookupInfra st.store fullArticleURL
    let st1 : CrawlState := { st with events := st.events ++ ex.2 }
    match ex.1 with
    | .err => st1
    | .existsBad => st1
    | .existsRec a =>
      if a.aiSummary = [] then
        let st2 : CrawlState :=
          { st1 with events := st1.events ++ [.storeUpdate (docIDUpdate fullArticleURL)] }
        if it.updateFails then st2
        else
          match storeUpdateAI st2.store (docIDUpdate fullArticleURL) with
          | some s2 => { st2 with store := s2 }
          | none => st2
      else st1
    | .noDoc =>
      let fr := if ¬ fullArticleURL = [] then fetchLoop it.fetch it.summary
                else (it.summary, 0, [])
      let art : NewsArticle :=
        { title := cleanUTF8String it.title
          summary := cleanUTF8String it.summary
          content := cleanUTF8String fr.1
          aiSummary := []
          source := cleanUTF8String it.source
          url := cleanUTF8String fullArticleURL
          collectedAt := it.now }
      let st2 : CrawlState :=
        { st1 with events := st1.events ++ articleRequests it.fetch fullArticleURL fr.2.1 ++
            [.storeSave (docIDSave art.url) art] }
      if it.saveFails then st2
      else { st2 with store := storeSet st2.store (docIDSave art.url) (.good art),
                      allNews := st2.allNews ++ [art] }

/-- Sequential processing of a page's items (the `Each` iteration). -/
def processItems (cfg : Config) : CrawlState → List ItemCase → CrawlState
  | st, [] => st
  | st, it :: rest => processItems cfg (processItem cfg st it) rest

/-- What reading and parsing a listing response yields. -/
inductive PageDoc
  | readError
  | parseError
  | items (its : List ItemCase)

/-- Oracle outcome of fetching one listing page. -/
inductive PageOutcome
  | reqError
  | transportError
  | response (code : Nat) (doc : PageDoc)

/-- The page loop of `CrawlNaverFinanceNews` (lines 260-504), structurally
recursive on remaining fuel; the loop condition `pageNum <= pages` stays
authoritative and the fuel is always sufficient at the top-level call.
`reqError` returns the error (line 265); every other failure `break`s. -/
def crawlSteps (cfg : Config) (env : Int → PageOutcome) (pages : Int) :
    Nat → Int → CrawlState → CrawlState × Option Unit
  | 0, _, st => (st, none)
  | fuel + 1, pageNum, st =>
    if pageNum ≤ pages then
      match env pageNum with
      | .reqError => (st, some ())
      | .transportError => ({ st with events := st.events ++ [.pageRequest pageNum] }, none)
      | .response code doc =>
        let st1 : CrawlState := { st with events := st.events ++ [.pageRequest pageNum] }
        if ¬ code = 200 then (st1, none)
        else
          match doc with
          | .readError => (st1, none)
          | .parseError => (st1, none)
          | .items its =>
            if its.isEmpty then (st1, none)
            else crawlSteps cfg env pages fuel (pageNum + 1) (processItems cfg st1 its)
    else (st, none)

/-- Model of `CrawlNaverFinanceNews(pages)`: run the page loop from page 1
on an initial store, with empty trace and empty `allNews`. -/
def CrawlNaverFinanceNews (cfg : Config) (env : Int → PageOutcome) (store0 : Store)
    (pages : Int) : CrawlState × Option Unit :=
  crawlSteps cfg env pages (pages.toNat + 1) 1 ⟨store0, [], []⟩

/-- The real configuration values (config.go). -/
def cfgC : Config :=
  { naverFinanceBaseURL := ascii "https://finance.naver.com/news/mainnews.naver"
    naverArticleBaseURL := ascii "https://n.news.naver.com/mnews/article" }

/-- C10: for every pageCount at most 0 the crawl returns an empty record
list and a nil error without issuing any network request or store
operation: the page loop body never executes. -/
theorem C10_nonpositive_pages (cfg : Config) (env : Int → PageOutcome) (store0 : Store)
    (pages : Int) (h : pages ≤ 0) :
    CrawlNaverFinanceNews cfg env store0 pages = (⟨store0, [], []⟩, none) := by
  unfold CrawlNaverFinanceNews
  have ht : pages.toNat = 0 := by omega
  rw [ht]
  unfold crawlSteps
  rw [if_neg (by omega)]

/-- A page oracle used only by concrete witnesses. -/
def envTransport : Int → PageOutcome := fun _ => PageOutcome.transportError

/-- Witness for C10 at pageCount -1. -/
theorem C10_nonpositive_pages_witness :
    CrawlNaverFinanceNews cfgC envTransport [] (-1) = (⟨[], [], []⟩, none) :=
  C10_nonpositive_pages cfgC envTransport [] (-1) (by decide)

/-- The canonical URL of an item, as the crawl computes it. -/
def itemURL (cfg : Config) (it : ItemCase) : GoStr :=
  reconstructURL cfg.naverArticleBaseURL it.link

/-- Item with a missing required field: processing is a no-op. -/
theorem processItem_invalid (cfg : Config) (st : CrawlState) (it : ItemCase)
    (hval : it.title = [] ∨ it.summary = [] ∨ it.source = [] ∨ it.link = []) :
    processItem cfg st it = st := by
  unfold processItem
  rw [if_pos hval]

/-- Duplicate-check outcomes that end the item with no further operation:
an error (client, Get, or DataTo failure) or an existing record whose
aiSummary is non-empty. -/
theorem processItem_stop (cfg : Config) (st : CrawlState) (it : ItemCase)
    (hval : ¬(it.title = [] ∨ it.summary = [] ∨ it.source = [] ∨ it.link = []))
    (hstop : (articleExistsInFirestore it.lookupInfra st.store (itemURL cfg it)).1 = .err ∨
      (articleExistsInFirestore it.lookupInfra st.store (itemURL cfg it)).1 = .existsBad ∨
      (∃ a, (articleExistsInFirestore it.lookupInfra st.store (itemURL cfg it)).1 =
        .existsRec a ∧ ¬ a.aiSummary = [])) :
    processItem cfg st it =
      { st with events :=
          st.events ++ (articleExistsInFirestore it.lookupInfra st.store (itemURL cfg it)).2 } := by
  unfold processItem
  rw [if_neg hval]
  dsimp only
  rcases hstop with h | h | ⟨a, h, hai⟩
  · rw [show reconstructURL cfg.naverArticleBaseURL it.link = itemURL cfg it from rfl, h]
  · rw [show reconstructURL cfg.naverArticleBaseURL it.link = itemURL cfg it from rfl, h]
  · rw [show reconstructURL cfg.naverArticleBaseURL it.link = itemURL cfg it from rfl, h]
    simp only
    rw [if_neg hai]

/-- An existing, convertible record with empty aiSummary: the item issues
the field update (and nothing else), and collects nothing. -/
theorem processItem_update_eval (cfg : Config) (st : CrawlState) (it : ItemCase)
    (a : NewsArticle)
    (hval : ¬(it.title = [] ∨ it.summary = [] ∨ it.source = [] ∨ it.link = []))
    (hrec : (articleExistsInFirestore it.lookupInfra st.store (itemURL cfg it)).1 =
      .existsRec a)
    (hai : a.aiSummary = []) :
    (processItem cfg st it).events =
      st.events ++ (articleExistsInFirestore it.lookupInfra st.store (itemURL cfg it)).2 ++
        [.storeUpdate (docIDUpdate (itemURL cfg it))] ∧
    (processItem cfg st it).allNews = st.allNews := by
  unfold processItem
  rw [if_neg hval]
  dsimp only
  rw [show reconstructURL cfg.naverArticleBaseURL it.link = itemURL cfg it from rfl, hrec]
  simp only
  rw [if_pos hai]
  split_ifs with hupd
  · exact ⟨rfl, rfl⟩
  · rcases storeUpdateAI st.store (docIDUpdate (itemURL cfg it)) with - | s2
    · exact ⟨rfl, rfl⟩
    · exact ⟨rfl, rfl⟩

/-- A fresh URL: the item builds the sanitized record and issues exactly
one full-overwrite save of it (after its article requests). -/
theorem processItem_noDoc_eval (cfg : Config) (st : CrawlState) (it : ItemCase)
    (hval : ¬(it.title = [] ∨ it.summary = [] ∨ it.source = [] ∨ it.link = []))
    (hnd : (articleExistsInFirestore it.lookupInfra st.store (itemURL cfg it)).1 = .noDoc) :
    ∃ a : NewsArticle,
      a.title = cleanUTF8String it.title ∧
      a.summary = cleanUTF8String it.summary ∧
      a.content = cleanUTF8String
        (if ¬ itemURL cfg it = [] then fetchLoop it.fetch it.summary
         else (it.summary, 0, [])).1 ∧
      a.aiSummary = [] ∧
      a.source = cleanUTF8String it.source ∧
      a.url = cleanUTF8String (itemURL cfg it) ∧
      (processItem cfg st it).events =
        st.events ++ (articleExistsInFirestore it.lookupInfra st.store (itemURL cfg it)).2 ++
          articleRequests it.fetch (itemURL cfg it)
            (if ¬ itemURL cfg it = [] then fetchLoop it.fetch it.summary
             else (it.summary, 0, [])).2.1 ++
          [.storeSave (docIDSave a.url) a] := by
  unfold processItem
  rw [if_neg hval]
  dsimp only
  rw [show reconstructURL cfg.naverArticleBaseURL it.link = itemURL cfg it from rfl, hnd]
  simp only
  refine Exists.intro
    { title := cleanUTF8String it.title
      summary := cleanUTF8String it.summary
      content := cleanUTF8String
        (if ¬ itemURL cfg it = [] then fetchLoop it.fetch it.summary
         else (it.summary, 0, [])).1
      aiSummary := []
      source := cleanUTF8String it.source
      url := cleanUTF8String (itemURL cfg it)
      collectedAt := it.now }
    ⟨rfl, rfl, rfl, rfl, rfl, rfl, ?_⟩
  split_ifs <;> rfl

/-- C1: for a listing item whose canonical URL already exists in the store,
the per-item body of `CrawlNaverFinanceNews` never issues a full-overwrite
save (`saveArticleToFirestore`); the only store mutation it may issue for
that item is the aiSummary field update of that URL's key, and that update
is issued only when the existing record converted and its aiSummary field
was empty. -/
theorem C1_dedupe_gate (cfg : Config) (st : CrawlState) (it : ItemCase)
    (hex : storeGet st.store (docIDExists (itemURL cfg it)) ≠ none) :
    (∀ k a, Event.storeSave k a ∈ (processItem cfg st it).events →
      Event.storeSave k a ∈ st.events) ∧
    (∀ k, Event.storeUpdate k ∈ (processItem cfg st it).events →
      Event.storeUpdate k ∈ st.events ∨
      (k = docIDUpdate (itemURL cfg it) ∧
        ∃ a, storeGet st.store (docIDExists (itemURL cfg it)) = some (.good a) ∧
          a.aiSummary = [])) := by
  by_cases hval : it.title = [] ∨ it.summary = [] ∨ it.source = [] ∨ it.link = []
  · rw [processItem_invalid cfg st it hval]
    exact ⟨fun k a hk => hk, fun k hk => Or.inl hk⟩
  rcases hinfra : it.lookupInfra with - | - | -
  · -- ok
    rcases hsg : storeGet st.store (docIDExists (itemURL cfg it)) with - | d
    · exact absurd hsg hex
    rcases d with a | -
    · -- good a
      have hx : articleExistsInFirestore it.lookupInfra st.store (itemURL cfg it) =
          (.existsRec a, [.storeLookup (docIDExists (itemURL cfg it))]) := by
        unfold articleExistsInFirestore
        rw [hinfra, hsg]
      by_cases hai : a.aiSummary = []
      · obtain ⟨hev, -⟩ := processItem_update_eval cfg st it a hval (by rw [hx]) hai
        rw [hev]
        refine ⟨fun k b hk => ?_, fun k hk => ?_⟩
        · simpa [hx] using hk
        · rw [hx] at hk
          simp only [List.append_assoc, List.mem_append, List.mem_singleton] at hk
          rcases hk with hk | hk | hk
          · exact Or.inl hk
          · exact absurd hk (by simp)
          · exact Or.inr ⟨by simpa using hk, a, rfl, hai⟩
      · rw [processItem_stop cfg st it hval (Or.inr (Or.inr ⟨a, by rw [hx], hai⟩))]
        refine ⟨fun k b hk => ?_, fun k hk => Or.inl ?_⟩ <;> simpa [hx] using hk
    · -- bad
      have hx : articleExistsInFirestore it.lookupInfra st.store (itemURL cfg it) =
          (.existsBad, [.storeLookup (docIDExists (itemURL cfg it))]) := by
        unfold articleExistsInFirestore
        rw [hinfra, hsg]
      rw [processItem_stop cfg st it hval (Or.inr (Or.inl (by rw [hx])))]
      refine ⟨fun k a hk => ?_, fun k hk => Or.inl ?_⟩ <;> simpa [hx] using hk
  · -- clientError
    have hx : articleExistsInFirestore it.lookupInfra st.store (itemURL cfg it) =
        (.err, []) := by
      rw [hinfra]
      rfl
    rw [processItem_stop cfg st it hval (Or.inl (by rw [hx]))]
    refine ⟨fun k a hk => ?_, fun k hk => Or.inl ?_⟩ <;> simpa [hx] using hk
  · -- getError
    have hx : articleExistsInFirestore it.lookupInfra st.store (itemURL cfg it) =
        (.err, [.storeLookup (docIDExists (itemURL cfg it))]) := by
      rw [hinfra]
      rfl
    rw [processItem_stop cfg st it hval (Or.inl (by rw [hx]))]
    refine ⟨fun k a hk => ?_, fun k hk => Or.inl ?_⟩ <;> simpa [hx] using hk

/-- Item oracle used by concrete witnesses: a well-formed item whose URL
resolves by the ID patterns and whose body fetch finds text. -/
def itGood : ItemCase :=
  { title := ascii "t"
    link := ascii "a?article_id=11&office_id=22"
    summary := ascii "sum"
    source := ascii "src"
    now := 7
    lookupInfra := .ok
    updateFails := false
    saveFails := false
    fetch := fun _ => ⟨true, .response 200 (.bodyDiv (ascii " body "))⟩ }

/-- The all-empty stored record used by concrete witnesses. -/
def artEmpty : NewsArticle :=
  { title := [], summary := [], content := [], aiSummary := [],
    source := [], url := [], collectedAt := 0 }

/-- A crawl state whose store already holds itGood's key with an empty
aiSummary. -/
def stHolding : CrawlState :=
  ⟨[(docIDExists (itemURL cfgC itGood), .good artEmpty)], [], []⟩

/-- Witness for C1: with the item's key already stored (empty aiSummary),
the issued update is exactly the aiSummary update of that key. -/
theorem C1_dedupe_gate_witness :
    Event.storeUpdate (docIDUpdate (itemURL cfgC itGood)) ∈ ([] : List Event) ∨
    (docIDUpdate (itemURL cfgC itGood) = docIDUpdate (itemURL cfgC itGood) ∧
      ∃ a, storeGet stHolding.store (docIDExists (itemURL cfgC itGood)) =
        some (.good a) ∧ a.aiSummary = []) :=
  (C1_dedupe_gate cfgC stHolding itGood (by decide)).2
    (docIDUpdate (itemURL cfgC itGood)) (by decide)

/-- C7: a duplicate-check failure (client error, Get error, or DataTo
conversion failure on the stored document) abandons the item without any
store mutation: the store, the collected list, and the set of save/update
events are unchanged, and processing continues with the rest of the items. -/
theorem C7_lookup_failure_tolerant (cfg : Config) (st : CrawlState) (it : ItemCase)
    (hfail : it.lookupInfra = .clientError ∨ it.lookupInfra = .getError ∨
      (it.lookupInfra = .ok ∧
        storeGet st.store (docIDExists (itemURL cfg it)) = some .bad)) :
    (processItem cfg st it).store = st.store ∧
    (processItem cfg st it).allNews = st.allNews ∧
    (∀ k a, Event.storeSave k a ∈ (processItem cfg st it).events →
      Event.storeSave k a ∈ st.events) ∧
    (∀ k, Event.storeUpdate k ∈ (processItem cfg st it).events →
      Event.storeUpdate k ∈ st.events) ∧
    (∀ rest, processItems cfg st (it :: rest) =
      processItems cfg (processItem cfg st it) rest) := by
  have hstate : processItem cfg st it = st ∨
      (processItem cfg st it = { st with events := st.events ++
          (articleExistsInFirestore it.lookupInfra st.store (itemURL cfg it)).2 } ∧
        ∀ e ∈ (articleExistsInFirestore it.lookupInfra st.store (itemURL cfg it)).2,
          ∃ k2, e = Event.storeLookup k2) := by
    by_cases hval : it.title = [] ∨ it.summary = [] ∨ it.source = [] ∨ it.link = []
    · exact Or.inl (processItem_invalid cfg st it hval)
    · refine Or.inr ⟨?_, ?_⟩
      · apply processItem_stop cfg st it hval
        rcases hfail with h | h | ⟨h, hsg⟩
        · exact Or.inl (by rw [h]; rfl)
        · exact Or.inl (by rw [h]; rfl)
        · exact Or.inr (Or.inl (by unfold articleExistsInFirestore; rw [h, hsg]))
      · intro e he
        rcases hfail with h | h | ⟨h, hsg⟩ <;> rw [h] at he
        · simp [articleExistsInFirestore] at he
        · simp [articleExistsInFirestore] at he
          exact ⟨_, he⟩
        · simp [articleExistsInFirestore, hsg] at he
          exact ⟨_, he⟩
  refine ⟨?_, ?_, ?_, ?_, fun rest => rfl⟩
  · rcases hstate with hst | ⟨hst, -⟩ <;> rw [hst]
  · rcases hstate with hst | ⟨hst, -⟩ <;> rw [hst]
  · rcases hstate with hst | ⟨hst, hsub⟩ <;> rw [hst]
    · exact fun k a hk => hk
    · intro k a hk
      simp only [List.mem_append] at hk
      rcases hk with hk | hk
      · exact hk
      · obtain ⟨k2, hk2⟩ := hsub _ hk
        exact absurd hk2 (by simp)
  · rcases hstate with hst | ⟨hst, hsub⟩ <;> rw [hst]
    · exact fun k hk => hk
    · intro k hk
      simp only [List.mem_append] at hk
      rcases hk with hk | hk
      · exact hk
      · obtain ⟨k2, hk2⟩ := hsub _ hk
        exact absurd hk2 (by simp)

/-- A page outcome that lets the loop continue to the next page: an HTTP
200 response whose parse yields at least one listing item. -/
def pageContinues : PageOutcome → Bool
  | .response 200 (.items its) => !its.isEmpty
  | _ => false

/-- The loop's error is `some ()` exactly when a request-construction
failure is reached: some page `k` in range has `reqError` and every page
before it let the loop continue. -/
theorem crawlSteps_err_iff (cfg : Config) (env : Int → PageOutcome) (pages : Int) :
    ∀ (fuel : Nat) (pageNum : Int) (st : CrawlState),
    (pages + 1 - pageNum).toNat < fuel →
    ((crawlSteps cfg env pages fuel pageNum st).2 = some () ↔
      ∃ k : Int, pageNum ≤ k ∧ k ≤ pages ∧ env k = .reqError ∧
        ∀ j : Int, pageNum ≤ j → j < k → pageContinues (env j) = true) := by
  intro fuel
  induction fuel with
  | zero =>
    intro pageNum st h
    omega
  | succ fuel ih =>
    intro pageNum st hfuel
    by_cases hle : pageNum ≤ pages
    · unfold crawlSteps
      rw [if_pos hle]
      rcases henv : env pageNum with - | - | ⟨code, doc⟩
      · dsimp only
        refine iff_of_true rfl ⟨pageNum, le_refl _, hle, henv, ?_⟩
        intro j h1 h2
        omega
      · dsimp only
        refine iff_of_false (by simp) ?_
        rintro ⟨k, h1, h2, h3, h4⟩
        by_cases hk : k = pageNum
        · subst hk
          rw [henv] at h3
          exact PageOutcome.noConfusion h3
        · have := h4 pageNum (le_refl _) (by omega)
          rw [henv] at this
          simp [pageContinues] at this
      · dsimp only
        by_cases hcode : ¬ code = 200
        · rw [if_pos hcode]
          refine iff_of_false (by simp) ?_
          rintro ⟨k, h1, h2, h3, h4⟩
          by_cases hk : k = pageNum
          · subst hk
            rw [henv] at h3
            exact PageOutcome.noConfusion h3
          · have := h4 pageNum (le_refl _) (by omega)
            rw [henv] at this
            unfold pageContinues at this
            rcases doc with - | - | its <;> simp_all
        · rw [if_neg hcode]
          push_neg at hcode
          subst hcode
          rcases doc with - | - | its
          · refine iff_of_false (by simp) ?_
            rintro ⟨k, h1, h2, h3, h4⟩
            by_cases hk : k = pageNum
            · subst hk
              rw [henv] at h3
              exact PageOutcome.noConfusion h3
            · have := h4 pageNum (le_refl _) (by omega)
              rw [henv] at this
              simp [pageContinues] at this
          · refine iff_of_false (by simp) ?_
            rintro ⟨k, h1, h2, h3, h4⟩
            by_cases hk : k = pageNum
            · subst hk
              rw [henv] at h3
              exact PageOutcome.noConfusion h3
            · have := h4 pageNum (le_refl _) (by omega)
              rw [henv] at this
              simp [pageContinues] at this
          · dsimp only
            by_cases hemp : its.isEmpty
            · rw [if_pos hemp]
              refine iff_of_false (by simp) ?_
              rintro ⟨k, h1, h2, h3, h4⟩
              by_cases hk : k = pageNum
              · subst hk
                rw [henv] at h3
                exact PageOutcome.noConfusion h3
              · have := h4 pageNum (le_refl _) (by omega)
                rw [henv] at this
                simp [pageContinues, hemp] at this
            · rw [if_neg hemp]
              rw [ih (pageNum + 1) _ (by omega)]
              constructor
              · rintro ⟨k, h1, h2, h3, h4⟩
                refine ⟨k, by omega, h2, h3, ?_⟩
                intro j hj1 hj2
                by_cases hj : j = pageNum
                · subst hj
                  rw [henv]
                  unfold pageContinues
                  simp [hemp]
                · exact h4 j (by omega) hj2
              · rintro ⟨k, h1, h2, h3, h4⟩
                have hk : ¬ k = pageNum := by
                  intro hk
                  subst hk
                  rw [henv] at h3
                  exact PageOutcome.noConfusion h3
                refine ⟨k, by omega, h2, h3, ?_⟩
                intro j hj1 hj2
                exact h4 j (by omega) hj2
    · unfold crawlSteps
      rw [if_neg hle]
      refine iff_of_false (by simp) ?_
      rintro ⟨k, h1, h2, -, -⟩
      omega

/-- C2 (amended): `CrawlNaverFinanceNews` returns a non-nil error if and
only if a request-construction failure on a listing page stopped the run;
transport errors and non-2xx statuses on a listing fetch stop the run but
yield a nil error, and item-level outcomes never affect the returned
error. -/
theorem C2_error_iff (cfg : Config) (env : Int → PageOutcome) (store0 : Store)
    (pages : Int) :
    (CrawlNaverFinanceNews cfg env store0 pages).2 = some () ↔
      ∃ k : Int, 1 ≤ k ∧ k ≤ pages ∧ env k = .reqError ∧
        ∀ j : Int, 1 ≤ j → j < k → pageContinues (env j) = true :=
  crawlSteps_err_iff cfg env pages (pages.toNat + 1) 1 ⟨store0, [], []⟩ (by omega)

/-- A page oracle failing request construction on every page. -/
def envReqErr : Int → PageOutcome := fun _ => PageOutcome.reqError

/-- Witness for C2: a request-construction failure on page 1 yields a
non-nil error. -/
theorem C2_error_iff_witness :
    (CrawlNaverFinanceNews cfgC envReqErr [] 1).2 = some () :=
  (C2_error_iff cfgC envReqErr [] 1).mpr
    ⟨1, by decide, by decide, rfl, fun j h1 h2 => absurd h2 (by omega)⟩

/-- C2 counterexample: a transport error on the listing fetch of page 1
stops the run, yet the returned error is nil, contradicting the claim that
a transport error stopping the run yields a non-nil error. -/
theorem C2_error_counterexample :
    envTransport 1 = PageOutcome.transportError ∧
      (CrawlNaverFinanceNews cfgC envTransport [] 1).2 = none :=
  ⟨rfl, by decide⟩

/-- Witness for C7: a conversion-failing stored document leaves store,
collected list and mutations untouched. -/
theorem C7_lookup_failure_tolerant_witness :
    (processItem cfgC
      ⟨[(docIDExists (itemURL cfgC itGood), .bad)], [], []⟩ itGood).store =
      [(docIDExists (itemURL cfgC itGood), .bad)] :=
  (C7_lookup_failure_tolerant cfgC
    ⟨[(docIDExists (itemURL cfgC itGood), .bad)], [], []⟩ itGood
    (Or.inr (Or.inr ⟨rfl, by decide⟩))).1

/-- Every event the duplicate check records is a store lookup. -/
theorem articleExists_events_lookup (infra : LookupInfra) (st : Store) (url : GoStr) :
    ∀ e ∈ (articleExistsInFirestore infra st url).2, ∃ k2, e = Event.storeLookup k2 := by
  intro e he
  rcases infra with - | - | -
  · unfold articleExistsInFirestore at he
    rcases hsg : storeGet st (docIDExists url) with - | d
    · rw [hsg] at he
      simp at he
      exact ⟨_, he⟩
    · rcases d <;> rw [hsg] at he <;> simp at he <;> exact ⟨_, he⟩
  · simp [articleExistsInFirestore] at he
  · simp [articleExistsInFirestore] at he
    exact ⟨_, he⟩

/-- Every event the fetch loop records is an article request. -/
theorem mem_articleRequests (env : Nat → ArticleAttempt) (url : GoStr) (n : Nat) (e : Event)
    (h : e ∈ articleRequests env url n) : ∃ u k, e = Event.articleRequest u k := by
  unfold articleRequests at h
  simp only [List.mem_filterMap] at h
  obtain ⟨k, -, hk⟩ := h
  by_cases hq : (env k).reqOK = true
  · rw [if_pos hq] at hk
    exact ⟨url, k, (Option.some.inj hk).symm⟩
  · rw [if_neg hq] at hk
    exact absurd hk (by simp)

/-- Item processing never records a page request. -/
theorem processItem_no_pageRequest (cfg : Config) (st : CrawlState) (it : ItemCase) (p : Int)
    (h : Event.pageRequest p ∈ (processItem cfg st it).events) :
    Event.pageRequest p ∈ st.events := by
  by_cases hval : it.title = [] ∨ it.summary = [] ∨ it.source = [] ∨ it.link = []
  · rwa [processItem_invalid cfg st it hval] at h
  rcases hek : (articleExistsInFirestore it.lookupInfra st.store (itemURL cfg it)).1
    with - | - | - | a
  · rw [processItem_stop cfg st it hval (Or.inl hek)] at h
    simp only [List.mem_append] at h
    rcases h with h | h
    · exact h
    · obtain ⟨k2, hk2⟩ := articleExists_events_lookup _ _ _ _ h
      exact absurd hk2 (by simp)
  · obtain ⟨a, -, -, -, -, -, -, hev⟩ := processItem_noDoc_eval cfg st it hval hek
    rw [hev] at h
    simp only [List.append_assoc, List.mem_append, List.mem_singleton] at h
    rcases h with h | h | h | h
    · exact h
    · obtain ⟨k2, hk2⟩ := articleExists_events_lookup _ _ _ _ h
      exact absurd hk2 (by simp)
    · obtain ⟨u, k2, hk2⟩ := mem_articleRequests _ _ _ _ h
      exact absurd hk2 (by simp)
    · exact absurd h (by simp)
  · rw [processItem_stop cfg st it hval (Or.inr (Or.inl hek))] at h
    simp only [List.mem_append] at h
    rcases h with h | h
    · exact h
    · obtain ⟨k2, hk2⟩ := articleExists_events_lookup _ _ _ _ h
      exact absurd hk2 (by simp)
  · by_cases hai : a.aiSummary = []
    · obtain ⟨hev, -⟩ := processItem_update_eval cfg st it a hval hek hai
      rw [hev] at h
      simp only [List.append_assoc, List.mem_append, List.mem_singleton] at h
      rcases h with h | h | h
      · exact h
      · obtain ⟨k2, hk2⟩ := articleExists_events_lookup _ _ _ _ h
        exact absurd hk2 (by simp)
      · exact absurd h (by simp)
    · rw [processItem_stop cfg st it hval (Or.inr (Or.inr ⟨a, hek, hai⟩))] at h
      simp only [List.mem_append] at h
      rcases h with h | h
      · exact h
      · obtain ⟨k2, hk2⟩ := articleExists_events_lookup _ _ _ _ h
        exact absurd hk2 (by simp)

/-- A page's item processing never records a page request. -/
theorem processItems_pageRequest (cfg : Config) : ∀ (its : List ItemCase)
    (st : CrawlState) (p : Int),
    Event.pageRequest p ∈ (processItems cfg st its).events →
    Event.pageRequest p ∈ st.events := by
  intro its
  induction its with
  | nil => exact fun st p h => h
  | cons it rest ih =>
    intro st p h
    exact processItem_no_pageRequest cfg st it p (ih (processItem cfg st it) p h)

/-- A page request recorded by the loop was either already in the trace or
is for a page every earlier page allowed the loop to reach. -/
theorem crawlSteps_pageRequest (cfg : Config) (env : Int → PageOutcome) (pages : Int) :
    ∀ (fuel : Nat) (pageNum : Int) (st : CrawlState) (j : Int),
    Event.pageRequest j ∈ (crawlSteps cfg env pages fuel pageNum st).1.events →
    Event.pageRequest j ∈ st.events ∨
      (pageNum ≤ j ∧ ∀ i : Int, pageNum ≤ i → i < j → pageContinues (env i) = true) := by
  intro fuel
  induction fuel with
  | zero => exact fun pageNum st j h => Or.inl h
  | succ fuel ih =>
    intro pageNum st j h
    by_cases hle : pageNum ≤ pages
    · unfold crawlSteps at h
      rw [if_pos hle] at h
      rcases henv : env pageNum with - | - | ⟨code, doc⟩ <;> rw [henv] at h <;>
        dsimp only at h
      · exact Or.inl h
      · simp only [List.mem_append, List.mem_singleton] at h
        rcases h with h | h
        · exact Or.inl h
        · refine Or.inr ⟨by simp at h; omega, ?_⟩
          intro i hi1 hi2
          simp only [Event.pageRequest.injEq] at h
          omega
      · by_cases hcode : ¬ code = 200
        · rw [if_pos hcode] at h
          simp only [List.mem_append, List.mem_singleton] at h
          rcases h with h | h
          · exact Or.inl h
          · simp only [Event.pageRequest.injEq] at h
            refine Or.inr ⟨by omega, ?_⟩
            intro i hi1 hi2
            omega
        · rw [if_neg hcode] at h
          push_neg at hcode
          subst hcode
          rcases doc with - | - | its <;> dsimp only at h
          · simp only [List.mem_append, List.mem_singleton] at h
            rcases h with h | h
            · exact Or.inl h
            · simp only [Event.pageRequest.injEq] at h
              refine Or.inr ⟨by omega, ?_⟩
              intro i hi1 hi2
              omega
          · simp only [List.mem_append, List.mem_singleton] at h
            rcases h with h | h
            · exact Or.inl h
            · simp only [Event.pageRequest.injEq] at h
              refine Or.inr ⟨by omega, ?_⟩
              intro i hi1 hi2
              omega
          · by_cases hemp : its.isEmpty
            · rw [if_pos hemp] at h
              simp only [List.mem_append, List.mem_singleton] at h
              rcases h with h | h
              · exact Or.inl h
              · simp only [Event.pageRequest.injEq] at h
                refine Or.inr ⟨by omega, ?_⟩
                intro i hi1 hi2
                omega
            · rw [if_neg hemp] at h
              rcases ih (pageNum + 1) _ j h with h2 | ⟨h1, h2⟩
              · have h3 := processItems_pageRequest cfg its _ j h2
                simp only [List.mem_append, List.mem_singleton] at h3
                rcases h3 with h3 | h3
                · exact Or.inl h3
                · simp only [Event.pageRequest.injEq] at h3
                  refine Or.inr ⟨by omega, ?_⟩
                  intro i hi1 hi2
                  omega
              · refine Or.inr ⟨by omega, ?_⟩
                intro i hi1 hi2
                by_cases hip : i = pageNum
                · subst hip
                  rw [henv]
                  unfold pageContinues
                  simp [hemp]
                · exact h2 i (by omega) hi2
    · unfold crawlSteps at h
      rw [if_neg hle] at h
      exact Or.inl h

/-- C8: if the listing parse of page k yields zero listing nodes, the run
terminates after page k: no page numbered greater than k is ever fetched,
regardless of the requested page count. -/
theorem C8_zero_items_stops (cfg : Config) (env : Int → PageOutcome) (store0 : Store)
    (pages : Int) (k : Int) (hk : 1 ≤ k)
    (hz : env k = .response 200 (.items [])) :
    ∀ j : Int, k < j →
      Event.pageRequest j ∉ (CrawlNaverFinanceNews cfg env store0 pages).1.events := by
  intro j hj hmem
  unfold CrawlNaverFinanceNews at hmem
  rcases crawlSteps_pageRequest cfg env pages (pages.toNat + 1) 1 ⟨store0, [], []⟩ j hmem
    with h | ⟨h1, h2⟩
  · simp at h
  · have hc := h2 k hk (by omega)
    rw [hz] at hc
    simp [pageContinues] at hc

/-- A page oracle whose listing parse yields zero items on every page. -/
def envC8 : Int → PageOutcome := fun _ => PageOutcome.response 200 (PageDoc.items [])

/-- Witness for C8: with zero items on page 1, page 2 is never requested
even when 5 pages were asked for. -/
theorem C8_zero_items_stops_witness :
    Event.pageRequest 2 ∉ (CrawlNaverFinanceNews cfgC envC8 [] 5).1.events :=
  C8_zero_items_stops cfgC envC8 [] 5 1 (by decide) rfl 2 (by decide)

/-- The reconstructed canonical URL is never empty (both shapes contain
fixed non-empty segments). -/
theorem fallbackURL_ne_nil (link : List Nat) :
    ascii "https://finance.naver.com" ++ link ≠ [] := by
  intro h
  rcases List.append_eq_nil.mp h with ⟨h1, -⟩
  exact absurd h1 (by decide)

theorem reconstructURL_ne_nil (base link : List Nat) : reconstructURL base link ≠ [] := by
  unfold reconstructURL
  rcases findCapture (ascii "article_id=") link with - | aid <;>
    rcases findCapture (ascii "office_id=") link with - | oid <;> dsimp only
  · exact fallbackURL_ne_nil link
  · exact fallbackURL_ne_nil link
  · exact fallbackURL_ne_nil link
  · intro h
    rcases List.append_eq_nil.mp h with ⟨h1, -⟩
    rcases List.append_eq_nil.mp h1 with ⟨-, h3⟩
    exact absurd h3 (by simp)

/-- C4 (amended): for every item that reaches persistence, the record's
content equals the sanitized trimmed text of the article body container
when some fetch attempt found that container, and otherwise equals the
sanitized listing teaser summary; in the fallback case the content is
non-empty whenever the teaser is non-empty.  (A found container whose
trimmed text is empty yields empty content even for a non-empty teaser,
which is the one correction to the claim.) -/
theorem C4_content_spec (cfg : Config) (st : CrawlState) (it : ItemCase)
    (hval : ¬(it.title = [] ∨ it.summary = [] ∨ it.source = [] ∨ it.link = []))
    (hnd : (articleExistsInFirestore it.lookupInfra st.store (itemURL cfg it)).1 =
      .noDoc) :
    ∃ a : NewsArticle,
      Event.storeSave (docIDSave a.url) a ∈ (processItem cfg st it).events ∧
      ((∃ k t, k < (fetchLoop it.fetch it.summary).2.1 ∧
          foundAttempt (it.fetch k) t ∧
          a.content = cleanUTF8String (trimSpace t)) ∨
        ((∀ k, k < (fetchLoop it.fetch it.summary).2.1 →
            ∀ t, ¬ foundAttempt (it.fetch k) t) ∧
          a.content = cleanUTF8String it.summary ∧ a.content ≠ [])) := by
  obtain ⟨a, -, -, hcon, -, -, -, hev⟩ := processItem_noDoc_eval cfg st it hval hnd
  refine ⟨a, ?_, ?_⟩
  · rw [hev]
    simp
  · have hurl : ¬ itemURL cfg it = [] := reconstructURL_ne_nil _ _
    rw [if_pos hurl] at hcon
    rcases fetchLoop_content it.fetch it.summary with ⟨k, t, hk, hf, hc⟩ | ⟨hnf, hc⟩
    · exact Or.inl ⟨k, t, hk, hf, by rw [hcon, hc]⟩
    · refine Or.inr ⟨hnf, by rw [hcon, hc], ?_⟩
      rw [hcon, hc]
      apply cleanUTF8String_ne_nil
      intro hsum
      exact hval (Or.inr (Or.inl hsum))

/-- Witness for C4 at a concrete well-formed item against an empty store. -/
theorem C4_content_spec_witness :
    ∃ a : NewsArticle,
      Event.storeSave (docIDSave a.url) a ∈
        (processItem cfgC ⟨[], [], []⟩ itGood).events ∧
      ((∃ k t, k < (fetchLoop itGood.fetch itGood.summary).2.1 ∧
          foundAttempt (itGood.fetch k) t ∧
          a.content = cleanUTF8String (trimSpace t)) ∨
        ((∀ k, k < (fetchLoop itGood.fetch itGood.summary).2.1 →
            ∀ t, ¬ foundAttempt (itGood.fetch k) t) ∧
          a.content = cleanUTF8String itGood.summary ∧ a.content ≠ [])) :=
  C4_content_spec cfgC ⟨[], [], []⟩ itGood (by decide) (by decide)

/-- Item oracle for the C4 counterexample: a well-formed item whose body
container is found but holds no text. -/
def itEmptyBody : ItemCase :=
  { title := ascii "t"
    link := ascii "a?article_id=11&office_id=22"
    summary := ascii "sum"
    source := ascii "src"
    now := 0
    lookupInfra := .ok
    updateFails := false
    saveFails := false
    fetch := fun _ => ⟨true, .response 200 (.bodyDiv [])⟩ }

/-- C4 counterexample: a found body container with empty text persists a
record with empty content although the teaser "sum" is non-empty,
refuting the claim's "never empty when the teaser is non-empty". -/
theorem C4_content_counterexample :
    itEmptyBody.summary ≠ [] ∧
    (processItem cfgC ⟨[], [], []⟩ itEmptyBody).allNews.map (fun a => a.content) =
      [[]] :=
  ⟨by decide, by decide⟩

end NewsCrawler
